import Mathlib

/-!
Verification of the genesis phylogenetic tree topology engine
(`lib/genesis/tree/function/functions.cpp`), the placement sample binary
serializer (`lib/genesis/placement/simulator/simulator.cpp`, the
`SampleSerializer` part) and the EPCA splitify transform
(`lib/genesis/placement/function/epca.cpp`), as a shallow embedding.

The topology store (`tree/tree.hpp`, not part of the staged sources) is
the link/node/edge arena described in the spec: dense index-addressed
tables, every link knows its `next` link (circular list around its node),
its `outer` link (other end of its edge), its node and its edge; every
node knows its primary (root-ward) link; every edge knows its primary
(root side) and secondary (away-from-root side) link.  Machine `size_t`
indices become `Nat`, `double` becomes `ℚ` (exact; the claims under test
do not exercise rounding), out-of-range table reads (undefined behaviour
in C++) read a default of 0.  Fallible operations return `Except`.
-/

namespace Genesis

/-- Error taxonomy of spec §7, used as the `Except` error type for the
fallible operations modelled here. -/
inductive PErr where
  | outOfRange
  | invalidTopology
  | topologyMismatch
  | formatError
  | versionError
  | truncatedInputError
  | invalidArgument
deriving DecidableEq, Repr

/-- The topology store: dense index-addressed tables of links, nodes and
edges (spec §3; `tree/tree.hpp`).  `linkNext l` is the next link around
`l`'s node, `linkOuter l` the link at the other end of `l`'s edge,
`linkNode l` / `linkEdge l` the owning node / edge, `nodeLink n` node
`n`'s primary (root-ward) link, `edgePLink e` / `edgeSLink e` edge `e`'s
primary (root side) / secondary link, `rootLink` the tree's root link. -/
structure TreeTopo where
  linkNext  : List Nat
  linkOuter : List Nat
  linkNode  : List Nat
  linkEdge  : List Nat
  nodeLink  : List Nat
  edgePLink : List Nat
  edgeSLink : List Nat
  rootLink  : Nat
deriving DecidableEq, Repr

/-- `Tree::link_count()`. -/
def linkCount (t : TreeTopo) : Nat := t.linkNext.length

/-- `Tree::node_count()`. -/
def node_count (t : TreeTopo) : Nat := t.nodeLink.length

/-- `Tree::edge_count()`. -/
def edge_count (t : TreeTopo) : Nat := t.edgePLink.length

/-- `TreeLink::next()`. -/
def lnext (t : TreeTopo) (l : Nat) : Nat := t.linkNext.getD l 0

/-- `TreeLink::outer()`. -/
def louter (t : TreeTopo) (l : Nat) : Nat := t.linkOuter.getD l 0

/-- `TreeLink::node()` as an index. -/
def lnode (t : TreeTopo) (l : Nat) : Nat := t.linkNode.getD l 0

/-- `TreeLink::edge()` as an index. -/
def ledge (t : TreeTopo) (l : Nat) : Nat := t.linkEdge.getD l 0

/-- `TreeNode::link()` / `TreeNode::primary_link()` as an index. -/
def nlink (t : TreeTopo) (n : Nat) : Nat := t.nodeLink.getD n 0

/-- `TreeEdge::primary_link()` as an index. -/
def eplink (t : TreeTopo) (e : Nat) : Nat := t.edgePLink.getD e 0

/-- `TreeEdge::secondary_link()` as an index. -/
def eslink (t : TreeTopo) (e : Nat) : Nat := t.edgeSLink.getD e 0

/-- `Tree::root_node()` as an index: the node of the root link. -/
def rootNodeIdx (t : TreeTopo) : Nat := lnode t t.rootLink

/-- `is_leaf( TreeLink const& )`: a leaf link is its own `next`. -/
def is_leaf (t : TreeTopo) (l : Nat) : Bool := lnext t l == l

/-- `is_inner( TreeLink const& )`. -/
def is_inner (t : TreeTopo) (l : Nat) : Bool := lnext t l != l

/-- `is_leaf( TreeNode const& )`: `is_leaf` of the node's primary link. -/
def is_leaf_node (t : TreeTopo) (n : Nat) : Bool := is_leaf t (nlink t n)

/-- `is_inner( TreeNode const& )`. -/
def is_inner_node (t : TreeTopo) (n : Nat) : Bool := is_inner t (nlink t n)

/-- `is_root( TreeNode const& )`: the node's primary link is the primary
link of its own edge. -/
def is_root (t : TreeTopo) (n : Nat) : Bool :=
  eplink t (ledge t (nlink t n)) == nlink t n

/-- The do-while walk of `degree( TreeNode const& )`: starting at link
`l`, collect links and advance with `next` until the start link `start`
is reached again (or the fuel, set to the tree's link count, runs out:
the C++ loop would not terminate on a malformed arena). -/
def nextChain (t : TreeTopo) (start : Nat) : Nat → Nat → List Nat
  | 0, _ => []
  | fuel + 1, l =>
      l :: (if lnext t l = start then [] else nextChain t start fuel (lnext t l))

/-- The circular list of links around the node owning link `start`,
starting at `start` (the loop of `degree( TreeNode const& )`). -/
def nodeCycle (t : TreeTopo) (start : Nat) : List Nat :=
  nextChain t start (linkCount t) start

/-- `degree( TreeNode const& )`: number of steps of the `next` walk from
the node's primary link back to itself. -/
def degree (t : TreeTopo) (n : Nat) : Nat :=
  (nodeCycle t (nlink t n)).length

/-- `is_bifurcating( Tree const&, bool loose )`: every node has degree at
most 3, and degree 2 only at the root (or anywhere when `loose`). -/
def is_bifurcating (t : TreeTopo) (loose : Bool) : Bool :=
  (List.range (node_count t)).all fun i =>
    let deg := degree t i
    !(deg > 3) && !(deg == 2 && i != rootNodeIdx t && !loose)

/-- `is_rooted( Tree const& )`: the root node has degree 2. -/
def is_rooted (t : TreeTopo) : Bool := degree t (rootNodeIdx t) == 2

/-- Iterating `TreeLink::next()` `k` times. -/
def nextIter (t : TreeTopo) : Nat → Nat → Nat
  | 0, l => l
  | k + 1, l => nextIter t k (lnext t l)

/-- `inner_node_indices( Tree const& )`: indices of inner nodes, in index
order. -/
def inner_node_indices (t : TreeTopo) : List Nat :=
  (List.range (node_count t)).filter fun i => is_inner_node t i

/-- `leaf_node_indices( Tree const& )`: indices of leaf nodes, in index
order. -/
def leaf_node_indices (t : TreeTopo) : List Nat :=
  (List.range (node_count t)).filter fun i => is_leaf_node t i

/-- Modelled from the spec: the membership check `belongs_to(topology,
link)` of §4.1 (its code, `tree/function/operators.cpp`, is not among the
staged sources).  In the dense index-addressed arena a link belongs to
the tree exactly when its index is within the link table. -/
def belongs_link (t : TreeTopo) (l : Nat) : Prop := l < linkCount t

/-- Modelled from the spec: `belongs_to(topology, node)` of §4.1, as for
`belongs_link`. -/
def belongs_node (t : TreeTopo) (n : Nat) : Prop := n < node_count t

instance (t : TreeTopo) (l : Nat) : Decidable (belongs_link t l) :=
  inferInstanceAs (Decidable (l < linkCount t))

instance (t : TreeTopo) (n : Nat) : Decidable (belongs_node t n) :=
  inferInstanceAs (Decidable (n < node_count t))

instance {ε α : Type} [DecidableEq ε] [DecidableEq α] : DecidableEq (Except ε α)
  | .error e, .error f =>
      if h : e = f then .isTrue (congrArg Except.error h)
      else .isFalse (fun he => h (Except.error.inj he))
  | .ok a, .ok b =>
      if h : a = b then .isTrue (congrArg Except.ok h)
      else .isFalse (fun he => h (Except.ok.inj he))
  | .error _, .ok _ => .isFalse (fun he => Except.noConfusion he)
  | .ok _, .error _ => .isFalse (fun he => Except.noConfusion he)

/-- `utils::Matrix<T>`: a sized rectangular matrix.  The backing
row-major vector is modelled as an entry function; `mset` is
`operator()(r, c) = v`. -/
structure Mat (α : Type) where
  rows : Nat
  cols : Nat
  entry : Nat → Nat → α

/-- A freshly constructed `utils::Matrix<T>(rows, cols, v)`, all entries
value-initialized to `v`. -/
def matInit (α : Type) (r c : Nat) (v : α) : Mat α := ⟨r, c, fun _ _ => v⟩

/-- Assignment `m(r, c) = v` on a `utils::Matrix`. -/
def mset {α : Type} (m : Mat α) (r c : Nat) (v : α) : Mat α :=
  { m with entry := fun i j => if i = r ∧ j = c then v else m.entry i j }

/-- The visited-set walk of `subtree_size( Tree const&, TreeLink const& )`:
starting from `cur` (initially `stop.outer()`), record the current link's
node and advance with `cur = cur->next().outer()` until `stop` is reached
again.  Fuel bounds the walk on malformed arenas; on a well-formed tree
the walk visits each far-side link once, so the tree's link count
suffices. -/
def sideWalk (t : TreeTopo) (stop : Nat) : Nat → Nat → List Nat
  | 0, _ => []
  | fuel + 1, cur =>
      if cur = stop then []
      else lnode t cur :: sideWalk t stop fuel (louter t (lnext t cur))

/-- `subtree_size( Tree const&, TreeLink const& )`: `InvalidTopology`
when the link does not belong to the tree, otherwise the number of
distinct nodes of the subtree on the far side of the link (the size of
the `visited_nodes` set). -/
def subtree_size (t : TreeTopo) (l : Nat) : Except PErr Nat :=
  if ¬ belongs_link t l then .error .invalidTopology
  else .ok (sideWalk t l (linkCount t) (louter t l)).dedup.length

/-- The links of the node owning `l` other than `l` itself, starting
after `l`: the loop `cl = l->next(); while( cl != l ) ... cl = cl->next()`
used by the subtree recursions. -/
def cycleTailAux (t : TreeTopo) (stop : Nat) : Nat → Nat → List Nat
  | 0, _ => []
  | fuel + 1, cur =>
      if cur = stop then [] else cur :: cycleTailAux t stop fuel (lnext t cur)

/-- The non-`l` links around `l`'s node in `next` order. -/
def cycleTail (t : TreeTopo) (l : Nat) : List Nat :=
  cycleTailAux t l (linkCount t) (lnext t l)

/-- Modelled from the spec: the pre-order traversal of a `Subtree`
(§4.2; the iterator headers `tree/iterator/preorder.hpp` and
`tree/tree/subtree.hpp` are not among the staged sources): the node of
the given link first, then, for each further link around that node, the
nodes of the subtree across that link, recursively — each descendant
exactly once, parent before child.  The node indices are listed in visit
order; fuel bounds the recursion depth. -/
def preorderSub (t : TreeTopo) : Nat → Nat → List Nat
  | 0, _ => []
  | fuel + 1, l =>
      lnode t l :: (cycleTail t l).flatMap fun m => preorderSub t fuel (louter t m)

/-- The helper `fill_subtree_indices` of `sign_matrix`: set column
`j` of row `row` to `sign` for every node `j` of the subtree across link
`l` (visited in pre-order). -/
def fill_subtree_indices (t : TreeTopo) (row : Nat) (l : Nat) (sign : Int)
    (m : Mat Int) : Mat Int :=
  (preorderSub t (linkCount t) l).foldl (fun m j => mset m row j sign) m

/-- One row step of the `sign_matrix` fill loop: the root row fills the
two subtrees across its primary link and that link's `next` with +1/−1;
any other inner row fills the two subtrees across `next` and
`next.next` of its primary link; leaf rows are left untouched. -/
def signRow (t : TreeTopo) (i : Nat) (m : Mat Int) : Mat Int :=
  let p := nlink t i
  if i = rootNodeIdx t then
    fill_subtree_indices t i (louter t (lnext t p)) (-1)
      (fill_subtree_indices t i (louter t p) 1 m)
  else if is_inner_node t i then
    fill_subtree_indices t i (louter t (lnext t (lnext t p))) (-1)
      (fill_subtree_indices t i (louter t (lnext t p)) 1 m)
  else m

/-- The full (uncompressed) result matrix of `sign_matrix`. -/
def sign_matrix_full (t : TreeTopo) : Mat Int :=
  (List.range (node_count t)).foldl (fun m i => signRow t i m)
    (matInit Int (node_count t) (node_count t) 0)

/-- The compressed form of `sign_matrix`: rows restricted to inner
nodes, columns to leaf nodes, both in index order, copied from the full
matrix into a fresh zero matrix. -/
def sign_matrix_compress (t : TreeTopo) (m : Mat Int) : Mat Int :=
  let ins := inner_node_indices t
  let lfs := leaf_node_indices t
  ⟨ins.length, lfs.length, fun r c =>
    if r < ins.length ∧ c < lfs.length then m.entry (ins.getD r 0) (lfs.getD c 0)
    else 0⟩

/-- `sign_matrix( Tree const&, bool compressed )`: the empty tree yields
the empty default matrix; a non-rooted or non-bifurcating tree raises
(`std::invalid_argument`, `InvalidTopology` in the spec taxonomy);
otherwise the ±1/0 matrix over nodes, optionally compressed. -/
def sign_matrix (t : TreeTopo) (compressed : Bool) : Except PErr (Mat Int) :=
  if node_count t = 0 then .ok (matInit Int 0 0 0)
  else if ¬ is_rooted t then .error .invalidTopology
  else if ¬ is_bifurcating t false then .error .invalidTopology
  else if compressed then .ok (sign_matrix_compress t (sign_matrix_full t))
  else .ok (sign_matrix_full t)

/-- Modelled from the spec: the Euler-tour iterator of §4.2
(`tree/iterator/eulertour.hpp` is not among the staged sources): starting
at a link, each step advances to `link.outer().next()`, and the tour ends
when the start link comes round again — a finite sequence bounded by
2 × edge-count.  `eulerAux` is the walk after the start link. -/
def eulerAux (t : TreeTopo) (stop : Nat) : Nat → Nat → List Nat
  | 0, _ => []
  | fuel + 1, cur =>
      if cur = stop then []
      else cur :: eulerAux t stop fuel (lnext t (louter t cur))

/-- The full Euler tour of link visits starting at link `l0`. -/
def eulertour (t : TreeTopo) (l0 : Nat) : List Nat :=
  l0 :: eulerAux t l0 (linkCount t) (lnext t (louter t l0))

/-- Increment entry `i` of a result vector (`++result[i]` /
`result[i] += amt`). -/
def bumpAt (v : List Nat) (i amt : Nat) : List Nat := v.set i (v.getD i 0 + amt)

/-- One Euler-tour step of `subtree_sizes( Tree const&, TreeNode const& )`
on the state (result vector, stack of entry links).  Mirrors the four
cases of the C++ loop body; the stack is never empty on a well-formed
tree (the start link stays at the bottom), so the empty-stack case is
dead and returns the state unchanged. -/
def subtreeSizesStep (t : TreeTopo) (startLink : Nat)
    (st : List Nat × List Nat) (l : Nat) : List Nat × List Nat :=
  match st with
  | (result, []) => (result, [])
  | (result, top :: rest) =>
      if lnext t l = top ∧ top ≠ startLink then
        let stSize := result.getD (lnode t top) 0
        (bumpAt result (lnode t (rest.getD 0 0)) stSize, rest)
      else if lnode t l = lnode t top then
        (result, top :: rest)
      else if is_leaf t l then
        (bumpAt result (lnode t top) 1, top :: rest)
      else
        (bumpAt result (lnode t top) 1, l :: top :: rest)

/-- `subtree_sizes( Tree const&, TreeNode const& )`: `InvalidTopology`
when the node does not belong to the tree; otherwise, per node, the
number of nodes of its subtree away from the start node, not counting
the node itself, accumulated over the Euler tour. -/
def subtree_sizes (t : TreeTopo) (n : Nat) : Except PErr (List Nat) :=
  if ¬ belongs_node t n then .error .invalidTopology
  else
    .ok ((eulertour t (nlink t n)).foldl (subtreeSizesStep t (nlink t n))
      (List.replicate (node_count t) 0, [nlink t n])).1

/-- The recursive helper `rec_subtree_height` of
`subtree_max_path_heights`: for a link `l`, the maximum over the other
links `cl` around `l`'s node of 1 + the height across `cl`, memoized
into the result vector at `l`'s node.  Fuel bounds the recursion depth. -/
def recSubtreeHeight (t : TreeTopo) : Nat → Nat → List Nat → List Nat × Nat
  | 0, _, res => (res, 0)
  | fuel + 1, l, res =>
      let (res', linkMax) := (cycleTail t l).foldl
        (fun (st : List Nat × Nat) cl =>
          let (res', h) := recSubtreeHeight t fuel (louter t cl) st.1
          (res', max st.2 (1 + h)))
        (res, 0)
      (res'.set (lnode t l) linkMax, linkMax)

/-- `subtree_max_path_heights( Tree const&, TreeNode const& )`:
`InvalidTopology` when the node does not belong to the tree; otherwise,
per node, the maximum number of edges from it to any leaf of its subtree
away from the start node, computed bottom-up. -/
def subtree_max_path_heights (t : TreeTopo) (n : Nat) : Except PErr (List Nat) :=
  if ¬ belongs_node t n then .error .invalidTopology
  else
    .ok (
      let step := fun (st : List Nat × Nat) cl =>
        let (res', h) := recSubtreeHeight t (linkCount t) (louter t cl) st.1
        (res', max st.2 (1 + h))
      let (res, nodeMax) :=
        (nodeCycle t (nlink t n)).foldl step (List.replicate (node_count t) 0, 0)
      res.set n nodeMax)

/-- `subtree_max_path_height( Tree const&, TreeLink const& )`:
`InvalidTopology` when the link does not belong to the tree; otherwise
the maximum number of edges from the far-side subtree's root to any of
its leaves.  Modelled from the spec for the body (§4.3 "Subtree max path
height"): the C++ computes it from `node_path_length_vector`
(`tree/function/distances.cpp`, not among the staged sources), which on
the far-side subtree equals the recursive bottom-up height across the
link. -/
def subtree_max_path_height (t : TreeTopo) (l : Nat) : Except PErr Nat :=
  if ¬ belongs_link t l then .error .invalidTopology
  else
    .ok (recSubtreeHeight t (linkCount t) (louter t l)
      (List.replicate (node_count t) 0)).2

/-- The loop of `path_to_root( TreeNode const& )`: push primary links
while the current link is the secondary (non-root-ward) link of its
edge, hopping to the next node toward the root; finally push the root's
link.  Fuel (the node count) bounds the path length. -/
def pathToRootAux (t : TreeTopo) : Nat → Nat → List Nat
  | 0, cur => [cur]
  | fuel + 1, cur =>
      if eslink t (ledge t cur) = cur then
        cur :: pathToRootAux t fuel (nlink t (lnode t (louter t cur)))
      else [cur]

/-- `path_to_root( TreeNode const& )`: the list of primary links from
the node up to (and including) the root's link. -/
def path_to_root (t : TreeTopo) (n : Nat) : List Nat :=
  pathToRootAux t (node_count t) (nlink t n)

/-- The trimming loop of `lowest_common_ancestor`, acting on the two
paths reversed (root first): while both paths still have two elements
and agree on them, drop the first; the LCA link is the head left over. -/
def lcaTrim : List Nat → List Nat → Nat
  | a1 :: a2 :: as, b1 :: b2 :: bs =>
      if a1 = b1 ∧ a2 = b2 then lcaTrim (a2 :: as) (b2 :: bs) else a1
  | a1 :: _, _ => a1
  | [], _ => 0

/-- `lowest_common_ancestor( TreeNode const&, TreeNode const& )`: the
same node short-circuits to itself; otherwise both root paths are built
and trimmed from the root end while their last two links coincide, and
the node of the last remaining link of the first path is the LCA. -/
def lowest_common_ancestor (t : TreeTopo) (a b : Nat) : Nat :=
  if a = b then a
  else lnode t (lcaTrim (path_to_root t a).reverse (path_to_root t b).reverse)

/-- One upper-triangle write pair of `lowest_common_ancestors`: the LCA
of nodes `r` and `c` is written to both `(r, c)` and `(c, r)`. -/
def lcaPair (t : TreeTopo) (r : Nat) (m : Mat Nat) (c : Nat) : Mat Nat :=
  mset (mset m r c (lowest_common_ancestor t r c)) c r
    (lowest_common_ancestor t r c)

/-- The inner column loop of `lowest_common_ancestors` for row `r`:
columns `c = r` to `n - 1`. -/
def lcaInner (t : TreeTopo) (r : Nat) (m : Mat Nat) : Mat Nat :=
  (List.range' r (node_count t - r)).foldl (lcaPair t r) m

/-- `lowest_common_ancestors( Tree const& )` (serial version): an n×n
index matrix; only the upper triangle is computed, each pairwise LCA
being written to both `(r, c)` and `(c, r)`; the diagonal is covered by
the `c = r` case. -/
def lowest_common_ancestors (t : TreeTopo) : Mat Nat :=
  (List.range (node_count t)).foldl (fun m r => lcaInner t r m)
    (matInit Nat (node_count t) (node_count t) 0)

/-- The reference topology `((B,(D,E)C)A,F,(H,I)G)R;` of the test suite
(`test/src/tree/functions.cpp`) as built by the Newick reader: nodes are
created in reversed post-order (R=0, G=1, I=2, H=3, F=4, A=5, C=6, E=7,
D=8, B=9), each node's links are allocated consecutively (primary link
first, then the links toward its children in Newick order), and each
non-root node brings the edge to its parent.  The resulting layout
reproduces every published test value (node-root-direction rows, subtree
sizes per link and per start node, max path heights and the LCA matrix),
checked below by evaluation. -/
def refTree10 : TreeTopo where
  linkNext  := [1, 2, 0, 4, 5, 3, 6, 7, 8, 10, 11, 9, 13, 14, 12, 15, 16, 17]
  linkOuter := [9, 8, 3, 2, 7, 6, 5, 4, 1, 0, 17, 12, 11, 16, 15, 14, 13, 10]
  linkNode  := [0, 0, 0, 1, 1, 1, 2, 3, 4, 5, 5, 5, 6, 6, 6, 7, 8, 9]
  linkEdge  := [4, 3, 0, 0, 2, 1, 1, 2, 3, 4, 8, 5, 5, 7, 6, 6, 7, 8]
  nodeLink  := [0, 3, 6, 7, 8, 9, 12, 15, 16, 17]
  edgePLink := [2, 5, 4, 1, 0, 11, 14, 13, 10]
  edgeSLink := [3, 6, 7, 8, 9, 12, 15, 16, 17]
  rootLink  := 0

/-- The 9-node rooted bifurcating tree of the sign-matrix reference test
(`test/src/tree/functions.cpp`, data file `tree/rooted.newick`): a root
(node 0) of degree 2 whose first subtree is an inner node (1) with two
leaves (3, 2) and whose second subtree is an inner node (4) with a leaf
(8) and an inner node (5) carrying two leaves (7, 6) — the unique shape
reproducing the reference sign matrices, laid out by the same reader
conventions as `refTree10`. -/
def rootedTree9 : TreeTopo where
  linkNext  := [1, 0, 3, 4, 2, 5, 6, 8, 9, 7, 11, 12, 10, 13, 14, 15]
  linkOuter := [7, 2, 1, 6, 5, 4, 3, 0, 15, 10, 9, 14, 13, 12, 11, 8]
  linkNode  := [0, 0, 1, 1, 1, 2, 3, 4, 4, 4, 5, 5, 5, 6, 7, 8]
  linkEdge  := [0, 1, 1, 2, 3, 3, 2, 0, 4, 5, 5, 6, 7, 7, 6, 4]
  nodeLink  := [0, 2, 5, 6, 7, 10, 13, 14, 15]
  edgePLink := [0, 1, 3, 4, 8, 9, 11, 12]
  edgeSLink := [7, 2, 6, 5, 15, 10, 14, 13]
  rootLink  := 0

/-- A default-constructed, empty `Tree`. -/
def emptyTree : TreeTopo where
  linkNext  := []
  linkOuter := []
  linkNode  := []
  linkEdge  := []
  nodeLink  := []
  edgePLink := []
  edgeSLink := []
  rootLink  := 0

example : degree refTree10 0 = 3 ∧ degree refTree10 2 = 1 ∧ degree refTree10 5 = 3 := by
  decide

example : is_rooted refTree10 = false ∧ is_bifurcating refTree10 false = true := by
  decide

example : is_rooted rootedTree9 = true ∧ is_bifurcating rootedTree9 false = true := by
  decide

example :
    (List.range 18).map (fun l => subtree_size refTree10 l) =
      [5, 1, 3, 7, 1, 1, 9, 9, 9, 5, 1, 3, 7, 1, 1, 9, 9, 9].map Except.ok := by
  decide

example : subtree_sizes refTree10 0 = .ok [9, 2, 0, 0, 0, 4, 2, 0, 0, 0] := by
  decide

example : subtree_sizes refTree10 5 = .ok [4, 2, 0, 0, 0, 9, 2, 0, 0, 0] := by
  decide

example : subtree_sizes refTree10 7 = .ok [4, 2, 0, 0, 0, 6, 8, 9, 0, 0] := by
  decide

example : subtree_max_path_heights refTree10 0 = .ok [3, 1, 0, 0, 0, 2, 1, 0, 0, 0] := by
  decide

example :
    subtree_max_path_height refTree10 (louter refTree10 (nlink refTree10 5)) = .ok 2 ∧
    subtree_max_path_height refTree10 (louter refTree10 (nlink refTree10 6)) = .ok 1 ∧
    subtree_max_path_height refTree10 (louter refTree10 (nlink refTree10 9)) = .ok 0 := by
  decide

example :
    lowest_common_ancestor refTree10 5 9 = 5 ∧
    lowest_common_ancestor refTree10 5 4 = 0 ∧
    lowest_common_ancestor refTree10 7 6 = 6 ∧
    lowest_common_ancestor refTree10 7 3 = 0 ∧
    lowest_common_ancestor refTree10 3 2 = 1 := by
  decide

example :
    (List.range 10).map (fun r => (List.range 10).map fun c =>
      (lowest_common_ancestors refTree10).entry r c) =
    [[0, 0, 0, 0, 0, 0, 0, 0, 0, 0],
     [0, 1, 1, 1, 0, 0, 0, 0, 0, 0],
     [0, 1, 2, 1, 0, 0, 0, 0, 0, 0],
     [0, 1, 1, 3, 0, 0, 0, 0, 0, 0],
     [0, 0, 0, 0, 4, 0, 0, 0, 0, 0],
     [0, 0, 0, 0, 0, 5, 5, 5, 5, 5],
     [0, 0, 0, 0, 0, 5, 6, 6, 6, 5],
     [0, 0, 0, 0, 0, 5, 6, 7, 6, 5],
     [0, 0, 0, 0, 0, 5, 6, 6, 8, 5],
     [0, 0, 0, 0, 0, 5, 5, 5, 5, 9]] := by
  decide

/-- Whether a fallible matrix result is `ok` with exactly the given
dimensions and entries. -/
def checkMat {α : Type} [DecidableEq α] (r : Except PErr (Mat α))
    (rows cols : Nat) (exp : List (List α)) (dflt : α) : Bool :=
  match r with
  | .error _ => false
  | .ok m =>
      m.rows == rows && m.cols == cols &&
      (List.range rows).all fun i => (List.range cols).all fun j =>
        m.entry i j == (exp.getD i []).getD j dflt

/-- The full sign matrix of the reference test
(`TEST( TreeFunctions, SignMatrix )`). -/
def expectedSignFull : List (List Int) :=
  [[0, -1, -1, -1,  1,  1,  1,  1,  1],
   [0,  0, -1,  1,  0,  0,  0,  0,  0],
   [0,  0,  0,  0,  0,  0,  0,  0,  0],
   [0,  0,  0,  0,  0,  0,  0,  0,  0],
   [0,  0,  0,  0,  0, -1, -1, -1,  1],
   [0,  0,  0,  0,  0,  0, -1,  1,  0],
   [0,  0,  0,  0,  0,  0,  0,  0,  0],
   [0,  0,  0,  0,  0,  0,  0,  0,  0],
   [0,  0,  0,  0,  0,  0,  0,  0,  0]]

/-- The compressed sign matrix of the reference test. -/
def expectedSignCompressed : List (List Int) :=
  [[-1, -1,  1,  1,  1],
   [-1,  1,  0,  0,  0],
   [ 0,  0, -1, -1,  1],
   [ 0,  0, -1,  1,  0]]

example : checkMat (sign_matrix rootedTree9 false) 9 9 expectedSignFull 5 = true := by
  decide

example : checkMat (sign_matrix rootedTree9 true) 4 5 expectedSignCompressed 5 = true := by
  decide

example : sign_matrix refTree10 false = .error .invalidTopology := rfl

/-! The placement overlay (`placement/pquery/placement.hpp`,
`placement/sample.hpp`) and its binary serializer
(`SampleSerializer::save` / `load`).  `double` fields are modelled as
exact rationals. -/

/-- `PqueryPlacement`: one placement, referencing an edge of the
sample's tree by index and carrying the four numeric fields. -/
structure PqueryPlacement where
  edge_index : Nat
  likelihood : ℚ
  like_weight_ratio : ℚ
  proximal_length : ℚ
  pendant_length : ℚ
deriving DecidableEq, Repr

/-- `PqueryName`: a name with its multiplicity. -/
structure PqueryName where
  name : String
  multiplicity : ℚ
deriving DecidableEq, Repr

/-- `Pquery`: an ordered collection of placements and of names. -/
structure Pquery where
  placements : List PqueryPlacement
  names : List PqueryName
deriving DecidableEq, Repr

/-- `Sample`: a topology plus its ordered collection of pqueries. -/
structure Sample where
  tree : TreeTopo
  pqueries : List Pquery
deriving DecidableEq, Repr

/-- `Sample::placement_count()`: total number of placements over all
pqueries. -/
def total_placement_count (s : Sample) : Nat :=
  (s.pqueries.map fun q => q.placements.length).sum

/-- The primitives of the external `utils::Serializer` /
`utils::Deserializer` byte streams (spec §6; `utils/io/serializer.hpp`
is not among the staged sources): the stream is modelled as the sequence
of `put_raw` / `put_int` / `put_float` / `put_string` items, which the
matching `get_*` calls read back in order. -/
inductive SToken where
  | raw (bytes : List Nat)
  | int (n : Nat)
  | flt (x : ℚ)
  | str (s : String)
deriving DecidableEq, Repr

/-- The 8-byte magic tag `"BPLACE\0\0"`. -/
def magicBytes : List Nat := [66, 80, 76, 65, 67, 69, 0, 0]

/-- `strncmp(a, b, n) == 0` on C strings: compare byte for byte, but
stop (equal) at a shared NUL, and stop after at most `n` bytes.  A list
models a buffer whose bytes past its end are the `c_str()` NUL
terminator. -/
def cstrncmpEq : Nat → List Nat → List Nat → Bool
  | 0, _, _ => true
  | n + 1, a, b =>
      if a.headD 0 ≠ b.headD 0 then false
      else if a.headD 0 = 0 then true
      else cstrncmpEq n a.tail b.tail

/-- The magic check of `load`:
`strncmp(magic.c_str(), "BPLACE\0\0", 8) == 0`.  The tag has a NUL at
index 6, where `strncmp` stops, so only the first 7 bytes of the input
are ever inspected — the 8th byte is not compared. -/
def magicMatch (m : List Nat) : Bool := cstrncmpEq 8 m magicBytes

/-- `SampleSerializer::version`. -/
def serializer_version : Nat := 1

/-- The stream items `save` writes for one placement: the edge index and
the four `double` fields, in order. -/
def putPlacement (p : PqueryPlacement) : List SToken :=
  [.int p.edge_index, .flt p.likelihood, .flt p.like_weight_ratio,
   .flt p.proximal_length, .flt p.pendant_length]

/-- The stream items `save` writes for one pquery: placement count and
placements, then name count and names. -/
def putPquery (q : Pquery) : List SToken :=
  .int q.placements.length :: q.placements.flatMap putPlacement ++
    .int q.names.length ::
      q.names.flatMap fun nm => [.str nm.name, .flt nm.multiplicity]

/-- `SampleSerializer::save`: magic tag, version, the textual tree
encoding (produced by the external Newick writer `enc`), the pquery
count, then each pquery. -/
def sample_save (enc : TreeTopo → String) (s : Sample) : List SToken :=
  .raw magicBytes :: .int serializer_version :: .str (enc s.tree) ::
    .int s.pqueries.length :: s.pqueries.flatMap putPquery

/-- The placement-reading loop of `load`: `num_place` placements, each
an edge index resolved through `Tree::edge_at` (`OutOfRange` when the
index is outside the edge table) and four `double`s. -/
def readPlacements (t : TreeTopo) :
    Nat → List SToken → Except PErr (List PqueryPlacement × List SToken)
  | 0, toks => .ok ([], toks)
  | k + 1, .int e :: .flt f1 :: .flt f2 :: .flt f3 :: .flt f4 :: toks =>
      if e < edge_count t then do
        let (ps, rest) ← readPlacements t k toks
        .ok (⟨e, f1, f2, f3, f4⟩ :: ps, rest)
      else .error .outOfRange
  | _ + 1, _ => .error .formatError

/-- The name-reading loop of `load`: `num_names` names, each a string
and a multiplicity. -/
def readNames :
    Nat → List SToken → Except PErr (List PqueryName × List SToken)
  | 0, toks => .ok ([], toks)
  | k + 1, .str s :: .flt m :: toks => do
      let (ns, rest) ← readNames k toks
      .ok (⟨s, m⟩ :: ns, rest)
  | _ + 1, _ => .error .formatError

/-- The pquery-reading loop of `load`. -/
def readPqueries (t : TreeTopo) :
    Nat → List SToken → Except PErr (List Pquery × List SToken)
  | 0, toks => .ok ([], toks)
  | k + 1, .int np :: toks => do
      let (ps, r1) ← readPlacements t np toks
      match r1 with
      | .int nn :: r2 => do
          let (ns, r3) ← readNames nn r2
          let (qs, r4) ← readPqueries t k r3
          .ok (⟨ps, ns⟩ :: qs, r4)
      | _ => .error .formatError
  | _ + 1, _ => .error .formatError

/-- `SampleSerializer::load`: check the magic tag by
`strncmp(·, "BPLACE\0\0", 8)` (`FormatError` on mismatch — the
comparison stops at the tag's NUL at index 6, so the 8th byte is never
inspected), the version byte (`VersionError` on mismatch), read the
tree string back through the external Newick reader `dec`, read the
declared pqueries, and fail with `TruncatedInputError` when the stream
is not exhausted afterwards.  A structurally impossible stream (an item
of the wrong kind where the C++ would misread raw bytes) is
`FormatError`. -/
def sample_load (dec : String → TreeTopo) (input : List SToken) :
    Except PErr Sample :=
  match input with
  | .raw m :: rest =>
      if ¬ magicMatch m then .error .formatError
      else
        match rest with
        | .int v :: rest2 =>
            if v ≠ serializer_version then .error .versionError
            else
              match rest2 with
              | .str ts :: .int nq :: rest3 =>
                  match readPqueries (dec ts) nq rest3 with
                  | .error e => .error e
                  | .ok (qs, rem) =>
                      if rem = [] then .ok ⟨dec ts, qs⟩
                      else .error .truncatedInputError
              | _ => .error .formatError
        | _ => .error .formatError
  | _ => .error .formatError

/-- `utils::signum`, cast to `double`: `(0 < x) - (x < 0)`. -/
def signum (x : ℚ) : ℚ := (if 0 < x then 1 else 0) - (if x < 0 then 1 else 0)

/-- Applying `f` to every element of the matrix data
(`for( auto& elem : imbalance_matrix )`). -/
def matMap (m : Mat ℚ) (f : ℚ → ℚ) : Mat ℚ :=
  { m with entry := fun i j =>
      if i < m.rows ∧ j < m.cols then f (m.entry i j) else m.entry i j }

/-- `epca_splitify_transform( utils::Matrix<double>&, double kappa )`:
`kappa < 0` raises (`InvalidArgument` in the spec taxonomy) before any
element is touched; `kappa = 0` replaces every element by its sign;
`kappa = 1` returns without modifying anything; otherwise every element
becomes `signum(x) * pow(|x|, kappa)`, where `pow` is the external
`std::pow` primitive, abstracted as a parameter. -/
def epca_splitify_transform (pow : ℚ → ℚ → ℚ) (m : Mat ℚ) (kappa : ℚ) :
    Except PErr (Mat ℚ) :=
  if kappa < 0 then .error .invalidArgument
  else if kappa = 0 then .ok (matMap m fun e => signum e)
  else if kappa = 1 then .ok m
  else .ok (matMap m fun e => signum e * pow |e| kappa)

/-- C6: `epca_splitify_transform(matrix, kappa)` with `kappa = 1` leaves
every entry of the matrix unchanged (it returns the matrix as given);
with `kappa = 0` it replaces every entry by its sign, so nonzero entries
become exactly +1 or −1 and zero entries stay 0; and for every
`kappa < 0` it fails with `InvalidArgument` (the exception is raised
before any element is modified). -/
theorem C6_splitify_transform (pow : ℚ → ℚ → ℚ) (m : Mat ℚ) (kappa : ℚ) :
    epca_splitify_transform pow m 1 = .ok m ∧
    (∃ m', epca_splitify_transform pow m 0 = .ok m' ∧
      m'.rows = m.rows ∧ m'.cols = m.cols ∧
      ∀ i j, i < m.rows → j < m.cols →
        m'.entry i j = signum (m.entry i j) ∧
        (m.entry i j ≠ 0 → m'.entry i j = 1 ∨ m'.entry i j = -1) ∧
        (m.entry i j = 0 → m'.entry i j = 0)) ∧
    (kappa < 0 → epca_splitify_transform pow m kappa = .error .invalidArgument) := by
  refine ⟨?_, ⟨matMap m fun e => signum e, ?_, rfl, rfl, ?_⟩, ?_⟩
  · rw [epca_splitify_transform, if_neg (by norm_num), if_neg (by norm_num),
      if_pos rfl]
  · rw [epca_splitify_transform, if_neg (by norm_num), if_pos rfl]
  · intro i j hi hj
    have he : (matMap m fun e => signum e).entry i j = signum (m.entry i j) := by
      simp [matMap, hi, hj]
    refine ⟨he, fun hne => ?_, fun hz => ?_⟩
    · rw [he]
      rcases lt_trichotomy (m.entry i j) 0 with h | h | h
      · right
        simp [signum, h, not_lt.mpr h.le]
      · exact absurd h hne
      · left
        simp [signum, h, not_lt.mpr h.le]
    · rw [he, hz]
      simp [signum]
  · intro hk
    rw [epca_splitify_transform, if_pos hk]

/-- Witness for C6 at a concrete negative kappa: the transform fails
with `InvalidArgument`. -/
theorem C6_splitify_transform_witness :
    epca_splitify_transform (fun _ _ => 0) (matInit ℚ 1 1 2) (-1) =
      .error .invalidArgument := by
  exact (C6_splitify_transform (fun _ _ => 0) (matInit ℚ 1 1 2) (-1)).2.2
    (by norm_num)

/-- Reading back the placements `save` wrote leaves the remaining stream
untouched and reproduces the placements exactly, provided every
referenced edge index is within the tree's edge table. -/
theorem readPlacements_roundtrip (t : TreeTopo) (pls : List PqueryPlacement)
    (rest : List SToken) (hval : ∀ p ∈ pls, p.edge_index < edge_count t) :
    readPlacements t pls.length (pls.flatMap putPlacement ++ rest) =
      .ok (pls, rest) := by
  induction pls with
  | nil => rfl
  | cons p ps ih =>
      have hp : p.edge_index < edge_count t := hval p (List.mem_cons_self p ps)
      have ihs := ih fun q hq => hval q (List.mem_cons_of_mem p hq)
      simp only [List.flatMap] at ihs
      simp only [List.flatMap, List.map_cons, List.flatten_cons, putPlacement,
        List.cons_append, List.append_assoc, List.length_cons, readPlacements]
      rw [if_pos hp]
      simp only [List.append_eq, List.nil_append, List.append_assoc]
      rw [ihs]
      rfl

/-- Reading back the names `save` wrote reproduces them exactly. -/
theorem readNames_roundtrip (ns : List PqueryName) (rest : List SToken) :
    readNames ns.length
        ((ns.flatMap fun nm => [.str nm.name, .flt nm.multiplicity]) ++ rest) =
      .ok (ns, rest) := by
  induction ns with
  | nil => rfl
  | cons n ns ih =>
      simp only [List.flatMap] at ih
      simp only [List.flatMap, List.map_cons, List.flatten_cons,
        List.cons_append, List.append_assoc, List.length_cons, readNames]
      simp only [List.append_eq, List.nil_append, List.append_assoc]
      rw [ih]
      rfl

/-- Reading back the pqueries `save` wrote reproduces them exactly. -/
theorem readPqueries_roundtrip (t : TreeTopo) (qs : List Pquery)
    (rest : List SToken)
    (hval : ∀ q ∈ qs, ∀ p ∈ q.placements, p.edge_index < edge_count t) :
    readPqueries t qs.length (qs.flatMap putPquery ++ rest) = .ok (qs, rest) := by
  induction qs with
  | nil => rfl
  | cons q qs ih =>
      have hq := hval q (List.mem_cons_self q qs)
      have ihs := ih fun r hr => hval r (List.mem_cons_of_mem q hr)
      simp only [List.flatMap] at ihs
      simp only [List.flatMap, List.map_cons, List.flatten_cons, putPquery,
        List.append_assoc, List.cons_append, List.length_cons, readPqueries]
      simp only [List.append_eq, List.append_assoc, List.cons_append]
      have h1 := readPlacements_roundtrip t q.placements
        (SToken.int q.names.length ::
          ((List.map (fun nm => [SToken.str nm.name, SToken.flt nm.multiplicity])
            q.names).flatten ++
            ((List.map putPquery qs).flatten ++ rest))) hq
      simp only [List.flatMap] at h1
      rw [h1]
      show (do
        let d1 ← readNames q.names.length
          ((List.map (fun nm => [SToken.str nm.name, SToken.flt nm.multiplicity])
            q.names).flatten ++
            ((List.map putPquery qs).flatten ++ rest))
        let d2 ← readPqueries t qs.length d1.2
        Except.ok (⟨q.placements, d1.1⟩ :: d2.1, d2.2)) = Except.ok (q :: qs, rest)
      have h2 := readNames_roundtrip q.names ((List.map putPquery qs).flatten ++ rest)
      simp only [List.flatMap] at h2
      rw [h2]
      show (do
        let d2 ← readPqueries t qs.length ((List.map putPquery qs).flatten ++ rest)
        Except.ok (⟨q.placements, q.names⟩ :: d2.1, d2.2)) = Except.ok (q :: qs, rest)
      rw [ihs]
      rfl

/-- Loading a saved stream reduces to reading the pqueries back: the
magic tag and version match by construction. -/
theorem sample_load_save_reduction (enc : TreeTopo → String)
    (dec : String → TreeTopo) (s : Sample) (extra : List SToken) :
    sample_load dec (sample_save enc s ++ extra) =
      match readPqueries (dec (enc s.tree)) s.pqueries.length
          (s.pqueries.flatMap putPquery ++ extra) with
      | .error e => .error e
      | .ok (qs, rem) =>
          if rem = [] then .ok ⟨dec (enc s.tree), qs⟩
          else .error .truncatedInputError := rfl

/-- C3: deserializing the result of serializing a `Sample` whose
placements reference edges of its own tree yields a `Sample` with the
same total placement count, the same name count per pquery, and the same
four numeric fields per placement, in order.  The external Newick
writer/reader pair `enc`/`dec` (out of scope, spec §6) is assumed to
reproduce the tree; the numeric fields are exact rationals, so the
"within floating-point tolerance" of the claim holds as equality. -/
theorem C3_serializer_roundtrip (enc : TreeTopo → String)
    (dec : String → TreeTopo) (s : Sample) (hdec : dec (enc s.tree) = s.tree)
    (hval : ∀ q ∈ s.pqueries, ∀ p ∈ q.placements,
      p.edge_index < edge_count s.tree) :
    ∃ s', sample_load dec (sample_save enc s) = .ok s' ∧
      total_placement_count s' = total_placement_count s ∧
      s'.pqueries.map (fun q => q.names.length) =
        s.pqueries.map (fun q => q.names.length) ∧
      s'.pqueries.map (fun q => q.placements.map fun p =>
          (p.likelihood, p.like_weight_ratio, p.proximal_length,
            p.pendant_length)) =
        s.pqueries.map (fun q => q.placements.map fun p =>
          (p.likelihood, p.like_weight_ratio, p.proximal_length,
            p.pendant_length)) := by
  refine ⟨s, ?_, rfl, rfl, rfl⟩
  have h3 := readPqueries_roundtrip s.tree s.pqueries [] hval
  have key := sample_load_save_reduction enc dec s []
  rw [List.append_nil] at key
  rw [key, hdec, h3]
  rfl

/-- A concrete populated sample on the reference tree, used to witness
the round-trip law. -/
def sampleW : Sample :=
  ⟨refTree10, [⟨[⟨0, 1, 1/2, 3, 4⟩, ⟨8, -2, 1/4, 0, 1⟩], [⟨"q0", 1⟩]⟩,
               ⟨[⟨3, 5, 1, 2, 6⟩], []⟩]⟩

/-- Witness for C3 at a concrete populated sample: every placement
references an edge of the sample's own tree, and the round trip
preserves the counts and fields. -/
theorem C3_serializer_roundtrip_witness :
    (∀ q ∈ sampleW.pqueries, ∀ p ∈ q.placements,
      p.edge_index < edge_count sampleW.tree) ∧
    (∃ s', sample_load (fun _ => refTree10) (sample_save (fun _ => "t") sampleW) =
        .ok s' ∧
      total_placement_count s' = total_placement_count sampleW ∧
      s'.pqueries.map (fun q => q.names.length) =
        sampleW.pqueries.map (fun q => q.names.length) ∧
      s'.pqueries.map (fun q => q.placements.map fun p =>
          (p.likelihood, p.like_weight_ratio, p.proximal_length,
            p.pendant_length)) =
        sampleW.pqueries.map (fun q => q.placements.map fun p =>
          (p.likelihood, p.like_weight_ratio, p.proximal_length,
            p.pendant_length))) := by
  refine ⟨by decide, ?_⟩
  exact C3_serializer_roundtrip (fun _ => "t") (fun _ => refTree10) sampleW rfl
    (by decide)

/-- C7, counterexample: an input whose first 8 bytes are
`"BPLACE\0A"` — differing from the magic tag in the 8th byte — is not
rejected: the `strncmp` against `"BPLACE\0\0"` stops at the NUL at
index 6 and never compares byte 7, so with a valid remainder `load`
returns a `Sample` instead of failing with `FormatError`. -/
theorem C7_load_failures_counterexample :
    [66, 80, 76, 65, 67, 69, 0, 65] ≠ magicBytes ∧
    sample_load (fun _ => emptyTree)
        [.raw [66, 80, 76, 65, 67, 69, 0, 65], .int 1, .str "", .int 0] =
      .ok ⟨emptyTree, []⟩ := by
  exact ⟨by decide, rfl⟩

/-- C7 (amended): `SampleSerializer::load` fails with `FormatError`
when the input's bytes differ from the magic tag under the `strncmp`
comparison — i.e. in one of the first 7 bytes, since the comparison
with `"BPLACE\0\0"` stops at the NUL at index 6 and the 8th byte is
never inspected; it fails with `VersionError` when the following
version byte differs from the serializer's version 1, and with
`TruncatedInputError` when items remain unconsumed after the declared
pquery structure (here: after a complete saved image) has been read; in
each failure case no `Sample` is returned (the result is the error). -/
theorem C7_load_failures :
    (∀ (dec : String → TreeTopo) (b : List Nat) (rest : List SToken),
      magicMatch b = false →
      sample_load dec (.raw b :: rest) = .error .formatError) ∧
    (∀ (dec : String → TreeTopo) (v : Nat) (rest : List SToken),
      v ≠ serializer_version →
      sample_load dec (.raw magicBytes :: .int v :: rest) =
        .error .versionError) ∧
    (∀ (enc : TreeTopo → String) (dec : String → TreeTopo) (s : Sample)
      (extra : List SToken), dec (enc s.tree) = s.tree →
      (∀ q ∈ s.pqueries, ∀ p ∈ q.placements,
        p.edge_index < edge_count s.tree) →
      extra ≠ [] →
      sample_load dec (sample_save enc s ++ extra) =
        .error .truncatedInputError) := by
  refine ⟨?_, ?_, ?_⟩
  · intro dec b rest hb
    simp only [sample_load]
    rw [if_pos (by simp [hb])]
  · intro dec v rest hv
    simp only [sample_load]
    rw [if_neg (by decide), if_pos hv]
  · intro enc dec s extra hdec hval hex
    have h3 := readPqueries_roundtrip s.tree s.pqueries extra hval
    rw [sample_load_save_reduction enc dec s extra, hdec, h3]
    exact if_neg hex

/-- Witness for C7 at concrete inputs: a magic tag wrong in its first 7
bytes, a wrong version byte, and a trailing item after a saved empty
sample. -/
theorem C7_load_failures_witness :
    magicMatch [0] = false ∧
    sample_load (fun _ => emptyTree) [.raw [0], .int 1] =
      .error .formatError ∧
    sample_load (fun _ => emptyTree)
        [.raw magicBytes, .int 2] = .error .versionError ∧
    sample_load (fun _ => emptyTree)
        (sample_save (fun _ => "") ⟨emptyTree, []⟩ ++ [.int 0]) =
      .error .truncatedInputError := by
  refine ⟨by decide, ?_, ?_, ?_⟩
  · exact C7_load_failures.1 (fun _ => emptyTree) [0] [.int 1] (by decide)
  · exact C7_load_failures.2.1 (fun _ => emptyTree) 2 [] (by decide)
  · exact C7_load_failures.2.2 (fun _ => "") (fun _ => emptyTree)
      ⟨emptyTree, []⟩ [.int 0] rfl (by simp) (by simp)

/-- C8: the subtree queries `subtree_size`, `subtree_sizes`,
`subtree_max_path_height` and `subtree_max_path_heights` fail with
`InvalidTopology` exactly when the given link (resp. node) does not
belong to the given tree, and return normally (with a value) whenever it
does. -/
theorem C8_subtree_query_guards (t : TreeTopo) (l n : Nat) :
    ((subtree_size t l = .error .invalidTopology ↔ ¬ belongs_link t l) ∧
      (belongs_link t l → ∃ v, subtree_size t l = .ok v)) ∧
    ((subtree_sizes t n = .error .invalidTopology ↔ ¬ belongs_node t n) ∧
      (belongs_node t n → ∃ v, subtree_sizes t n = .ok v)) ∧
    ((subtree_max_path_height t l = .error .invalidTopology ↔
        ¬ belongs_link t l) ∧
      (belongs_link t l → ∃ v, subtree_max_path_height t l = .ok v)) ∧
    ((subtree_max_path_heights t n = .error .invalidTopology ↔
        ¬ belongs_node t n) ∧
      (belongs_node t n → ∃ v, subtree_max_path_heights t n = .ok v)) := by
  refine ⟨⟨?_, ?_⟩, ⟨?_, ?_⟩, ⟨?_, ?_⟩, ⟨?_, ?_⟩⟩ <;>
    first
    | · by_cases h : belongs_link t l <;>
        simp [subtree_size, subtree_max_path_height, h]
    | · by_cases h : belongs_node t n <;>
        simp [subtree_sizes, subtree_max_path_heights, h]

/-- Witness for C8 at the reference tree: a link and node of the tree
yield values, an out-of-range link index yields `InvalidTopology`. -/
theorem C8_subtree_query_guards_witness :
    (belongs_link refTree10 0 ∧ ∃ v, subtree_size refTree10 0 = .ok v) ∧
    (¬ belongs_link refTree10 18 ∧
      subtree_size refTree10 18 = .error .invalidTopology) ∧
    (belongs_node refTree10 0 ∧ ∃ v, subtree_sizes refTree10 0 = .ok v) := by
  refine ⟨⟨by decide, ?_⟩, ⟨by decide, ?_⟩, ⟨by decide, ?_⟩⟩
  · exact ((C8_subtree_query_guards refTree10 0 0).1).2 (by decide)
  · exact ((C8_subtree_query_guards refTree10 18 0).1).1.mpr (by decide)
  · exact ((C8_subtree_query_guards refTree10 0 0).2.1).2 (by decide)

/-- C4, counterexample: on the reference topology
`((B,(D,E)C)A,F,(H,I)G)R;` the tree has 10 nodes, and `subtree_size` at
link index 6 returns 9 — not the total node count as the claim states
(link 6 is the single link of leaf I, so its far side holds every node
but I itself). -/
theorem C4_subtree_size_counterexample :
    node_count refTree10 = 10 ∧
    subtree_size refTree10 6 = Except.ok 9 ∧
    subtree_size refTree10 6 ≠ Except.ok (node_count refTree10) := by
  decide

/-- C4, amended: on the reference topology, `subtree_size` at the links
of the edge touching node A away from the root (link 0 at R toward A and
its outer link 9 at A) returns 5, and at link index 6 — the single link
of leaf I, not a root-ward link of the whole tree — it returns 9, the
total node count (10) minus one. -/
theorem C4_subtree_size_reference :
    subtree_size refTree10 0 = Except.ok 5 ∧
    subtree_size refTree10 9 = Except.ok 5 ∧
    subtree_size refTree10 6 = Except.ok 9 ∧
    is_leaf refTree10 6 = true ∧ lnode refTree10 6 = 2 ∧
    node_count refTree10 = 10 ∧
    subtree_size refTree10 6 = Except.ok (node_count refTree10 - 1) := by
  decide

/-- C5, counterexample: the topology `((B,(D,E)C)A,F,(H,I)G)R` named by
the claim has 10 nodes and a trifurcating root (degree 3), so
`sign_matrix` on it fails with `InvalidTopology` instead of returning
the fixed 9×9 reference pattern. -/
theorem C5_sign_matrix_counterexample :
    sign_matrix refTree10 false = Except.error PErr.invalidTopology ∧
    sign_matrix refTree10 true = Except.error PErr.invalidTopology ∧
    is_rooted refTree10 = false ∧
    node_count refTree10 = 10 := by
  exact ⟨rfl, rfl, by decide, by decide⟩

/-- C5, amended: the fixed ±1/0 pattern of the reference test data is
the sign matrix of the 9-node rooted bifurcating tree of the test's data
file (`tree/rooted.newick`, the `rootedTree9` layout), not of the
10-node unrooted reference topology: on that tree `sign_matrix` returns
exactly the fixed 9×9 matrix, and the compressed form exactly the fixed
4×5 matrix. -/
theorem C5_sign_matrix_reference :
    node_count rootedTree9 = 9 ∧
    is_rooted rootedTree9 = true ∧
    is_bifurcating rootedTree9 false = true ∧
    checkMat (sign_matrix rootedTree9 false) 9 9 expectedSignFull 5 = true ∧
    checkMat (sign_matrix rootedTree9 true) 4 5 expectedSignCompressed 5 = true := by
  decide

/-- C10, counterexample: the empty tree does fail none of the checks,
but it is not "neither rooted nor bifurcating": `is_bifurcating`
vacuously holds on a tree with no nodes (the loop body never runs), so
the claim's parenthetical is false. -/
theorem C10_sign_matrix_empty_counterexample :
    is_bifurcating emptyTree false = true ∧
    sign_matrix emptyTree false = Except.ok (matInit Int 0 0 0) := by
  exact ⟨by decide, rfl⟩

/-- Reading an entry after an assignment. -/
theorem mset_entry {α : Type} (m : Mat α) (r c : Nat) (v : α) (i j : Nat) :
    (mset m r c v).entry i j = if i = r ∧ j = c then v else m.entry i j := rfl

/-- The LCA of a node with itself is the node (the same-node
short-circuit of `lowest_common_ancestor`). -/
theorem lowest_common_ancestor_self (t : TreeTopo) (a : Nat) :
    lowest_common_ancestor t a a = a := by
  simp [lowest_common_ancestor]

/-- A symmetric pair write preserves entry-wise symmetry. -/
theorem lcaPair_symm (t : TreeTopo) (r : Nat) (m : Mat Nat) (c : Nat)
    (hm : ∀ i j, m.entry i j = m.entry j i) :
    ∀ i j, (lcaPair t r m c).entry i j = (lcaPair t r m c).entry j i := by
  intro i j
  simp only [lcaPair, mset_entry]
  split_ifs <;> first | rfl | exact hm i j | tauto

/-- The column loop preserves entry-wise symmetry. -/
theorem lcaInner_symm (t : TreeTopo) (r : Nat) (m : Mat Nat)
    (hm : ∀ i j, m.entry i j = m.entry j i) :
    ∀ i j, (lcaInner t r m).entry i j = (lcaInner t r m).entry j i := by
  unfold lcaInner
  generalize List.range' r (node_count t - r) = l
  induction l generalizing m with
  | nil => exact hm
  | cons c cs ih => exact ih (lcaPair t r m c) (lcaPair_symm t r m c hm)

/-- A pair write at row `r` and column `c` leaves a diagonal entry
`(d, d)` unchanged unless `d = r = c`. -/
theorem lcaPair_diag (t : TreeTopo) (r : Nat) (m : Mat Nat) (c d : Nat)
    (h : ¬ (d = r ∧ d = c)) :
    (lcaPair t r m c).entry d d = m.entry d d := by
  simp only [lcaPair, mset_entry]
  rw [if_neg fun hh => h ⟨hh.2, hh.1⟩, if_neg h]

/-- The column loop leaves diagonal entries of other rows unchanged. -/
theorem lcaInner_diag_ne (t : TreeTopo) (r : Nat) (m : Mat Nat) (d : Nat)
    (hr : d ≠ r) (hl : ∀ c ∈ List.range' r (node_count t - r), d ≠ c) :
    (lcaInner t r m).entry d d = m.entry d d := by
  unfold lcaInner
  revert hl
  generalize List.range' r (node_count t - r) = l
  induction l generalizing m with
  | nil => intro _; rfl
  | cons c cs ih =>
      intro hl
      rw [List.foldl_cons, ih (lcaPair t r m c) fun x hx => hl x (List.mem_cons_of_mem c hx),
        lcaPair_diag t r m c d fun hh => hr hh.1]

/-- The column loop for row `r` writes `r` at the diagonal entry
`(r, r)` (its first column is `c = r`, and the LCA of `r` with itself is
`r`). -/
theorem lcaInner_diag_self (t : TreeTopo) (r : Nat) (m : Mat Nat)
    (hr : r < node_count t) :
    (lcaInner t r m).entry r r = r := by
  unfold lcaInner
  have hn : node_count t - r = (node_count t - r - 1) + 1 := by omega
  rw [hn, List.range'_succ, List.foldl_cons]
  have hfirst : (lcaPair t r m r).entry r r = r := by
    simp [lcaPair, mset_entry, lowest_common_ancestor_self]
  have hpost : ∀ (l : List Nat) (m2 : Mat Nat), (∀ c ∈ l, r < c) →
      (l.foldl (lcaPair t r) m2).entry r r = m2.entry r r := by
    intro l
    induction l with
    | nil => intro m2 _; rfl
    | cons c cs ih =>
        intro m2 hl
        rw [List.foldl_cons, ih _ fun x hx => hl x (List.mem_cons_of_mem c hx),
          lcaPair_diag t r m2 c r
            fun hh => absurd hh.2 (Nat.ne_of_lt (hl c (List.mem_cons_self c cs)))]
  rw [hpost (List.range' (r + 1) (node_count t - r - 1)) (lcaPair t r m r)
    fun c hc => by have := (List.mem_range'_1.mp hc).1; omega]
  exact hfirst

/-- C2: `lowest_common_ancestor(a, a)` returns `a` itself, and the
all-pairs LCA matrix is symmetric with diagonal entry `(d, d) = d` for
every node index `d`. -/
theorem C2_lca_matrix (t : TreeTopo) (a r c d : Nat) (hd : d < node_count t) :
    lowest_common_ancestor t a a = a ∧
    (lowest_common_ancestors t).entry r c = (lowest_common_ancestors t).entry c r ∧
    (lowest_common_ancestors t).entry d d = d := by
  refine ⟨lowest_common_ancestor_self t a, ?_, ?_⟩
  · have key : ∀ (l : List Nat) (m : Mat Nat), (∀ i j, m.entry i j = m.entry j i) →
        ∀ i j, (l.foldl (fun m r => lcaInner t r m) m).entry i j =
          (l.foldl (fun m r => lcaInner t r m) m).entry j i := by
      intro l
      induction l with
      | nil => intro m hm; exact hm
      | cons x xs ih => intro m hm; exact ih (lcaInner t x m) (lcaInner_symm t x m hm)
    exact key (List.range (node_count t)) _ (fun _ _ => rfl) r c
  · have hpost : ∀ (l : List Nat) (m : Mat Nat), (∀ x ∈ l, d < x) →
        (l.foldl (fun m r => lcaInner t r m) m).entry d d = m.entry d d := by
      intro l
      induction l with
      | nil => intro m _; rfl
      | cons x xs ih =>
          intro m hl
          rw [List.foldl_cons, ih _ fun y hy => hl y (List.mem_cons_of_mem x hy)]
          refine lcaInner_diag_ne t x m d
            (Nat.ne_of_lt (hl x (List.mem_cons_self x xs))) fun e he => ?_
          have := (List.mem_range'_1.mp he).1
          have := hl x (List.mem_cons_self x xs)
          omega
    have main : ∀ (l : List Nat) (m : Mat Nat), List.Pairwise (· < ·) l →
        d ∈ l → (l.foldl (fun m r => lcaInner t r m) m).entry d d = d := by
      intro l
      induction l with
      | nil => intro m _ hdm; cases hdm
      | cons x xs ih =>
          intro m hp hdm
          rw [List.foldl_cons]
          rcases List.mem_cons.mp hdm with rfl | hdxs
          · rw [hpost xs _ fun y hy => (List.pairwise_cons.mp hp).1 y hy]
            exact lcaInner_diag_self t d m hd
          · exact ih _ (List.pairwise_cons.mp hp).2 hdxs
    exact main (List.range (node_count t)) _ (List.pairwise_lt_range _)
      (List.mem_range.mpr hd)

/-- Witness for C2 at the reference tree and a concrete diagonal
index. -/
theorem C2_lca_matrix_witness :
    3 < node_count refTree10 ∧
    lowest_common_ancestor refTree10 7 7 = 7 ∧
    (lowest_common_ancestors refTree10).entry 2 3 =
      (lowest_common_ancestors refTree10).entry 3 2 ∧
    (lowest_common_ancestors refTree10).entry 3 3 = 3 := by
  have h := C2_lca_matrix refTree10 7 2 3 3 (by decide)
  exact ⟨by decide, h.1, h.2.1, h.2.2⟩

/-- The node list of the subtree that `signRow` fills with +1 for row
`i`: across the primary link for the root row, across `next` of the
primary link for any other row. -/
def plusSubtree (t : TreeTopo) (i : Nat) : List Nat :=
  if i = rootNodeIdx t then preorderSub t (linkCount t) (louter t (nlink t i))
  else preorderSub t (linkCount t) (louter t (lnext t (nlink t i)))

/-- The node list of the subtree that `signRow` fills with −1 for row
`i`. -/
def minusSubtree (t : TreeTopo) (i : Nat) : List Nat :=
  if i = rootNodeIdx t then
    preorderSub t (linkCount t) (louter t (lnext t (nlink t i)))
  else preorderSub t (linkCount t) (louter t (lnext t (lnext t (nlink t i))))

/-- In a well-formed tree the two non-root-ward subtrees of a node are
node-disjoint; this is the tree-ness fact the sign-matrix row pattern
rests on.  Decidable, so concrete trees are checked by evaluation. -/
def SignDisjoint (t : TreeTopo) : Prop :=
  ∀ i, i < node_count t → (i = rootNodeIdx t ∨ is_inner_node t i = true) →
    ∀ j ∈ plusSubtree t i, j ∉ minusSubtree t i

instance (t : TreeTopo) : Decidable (SignDisjoint t) :=
  inferInstanceAs (Decidable
    (∀ i, i < node_count t → (i = rootNodeIdx t ∨ is_inner_node t i = true) →
      ∀ j ∈ plusSubtree t i, j ∉ minusSubtree t i))

/-- Entries after a subtree fill: column `j` of row `row` holds the sign
exactly for the nodes of the filled subtree; everything else is
unchanged. -/
theorem fill_subtree_entry (t : TreeTopo) (row l : Nat) (sign : Int)
    (m : Mat Int) (i j : Nat) :
    (fill_subtree_indices t row l sign m).entry i j =
      if i = row ∧ j ∈ preorderSub t (linkCount t) l then sign
      else m.entry i j := by
  unfold fill_subtree_indices
  generalize preorderSub t (linkCount t) l = ns
  induction ns generalizing m with
  | nil => simp
  | cons x xs ih =>
      rw [List.foldl_cons, ih]
      simp only [mset_entry, List.mem_cons]
      split_ifs <;> first | rfl | tauto

/-- The matrix entry a row step leaves in another row is unchanged. -/
theorem signRow_other (t : TreeTopo) (r : Nat) (m : Mat Int) (i j : Nat)
    (hne : i ≠ r) : (signRow t r m).entry i j = m.entry i j := by
  unfold signRow
  split_ifs <;> (try rfl) <;>
    rw [fill_subtree_entry, fill_subtree_entry] <;> simp [hne]

/-- A row step's entry in its own row depends on the previous matrix
only through the same entry. -/
theorem signRow_congr (t : TreeTopo) (r : Nat) (m m' : Mat Int) (i j : Nat)
    (h : m.entry i j = m'.entry i j) :
    (signRow t r m).entry i j = (signRow t r m').entry i j := by
  unfold signRow
  split_ifs with h1 h2
  · simp only [fill_subtree_entry]
    split_ifs <;> first | rfl | exact h
  · simp only [fill_subtree_entry]
    split_ifs <;> first | rfl | exact h
  · exact h

/-- The own-row entries of a root or inner row step: −1 on the minus
subtree, +1 on the plus subtree outside it, the old entry elsewhere. -/
theorem signRow_entry_active (t : TreeTopo) (r : Nat) (m : Mat Int) (j : Nat)
    (hact : r = rootNodeIdx t ∨ is_inner_node t r = true) :
    (signRow t r m).entry r j =
      if j ∈ minusSubtree t r then -1
      else if j ∈ plusSubtree t r then 1
      else m.entry r j := by
  unfold signRow plusSubtree minusSubtree
  by_cases hroot : r = rootNodeIdx t
  · rw [if_pos hroot, if_pos hroot, if_pos hroot]
    simp only [fill_subtree_entry, true_and]
  · rcases hact with h | hin
    · exact absurd h hroot
    · rw [if_neg hroot, if_neg hroot, if_neg hroot, if_pos hin]
      simp only [fill_subtree_entry, true_and]

/-- A leaf row step writes nothing. -/
theorem signRow_entry_leaf (t : TreeTopo) (r : Nat) (m : Mat Int)
    (hact : ¬ (r = rootNodeIdx t ∨ is_inner_node t r = true)) :
    signRow t r m = m := by
  unfold signRow
  rw [if_neg fun h => hact (Or.inl h), if_neg fun h => hact (Or.inr h)]

/-- Rows not in the processed list are untouched by the fill loop. -/
theorem signFold_not_mem (t : TreeTopo) :
    ∀ (l : List Nat) (m : Mat Int) (i j : Nat), i ∉ l →
      ((l.foldl (fun m r => signRow t r m) m).entry i j = m.entry i j) := by
  intro l
  induction l with
  | nil => intro m i j _; rfl
  | cons x xs ih =>
      intro m i j hi
      rw [List.foldl_cons, ih _ _ _ fun h => hi (List.mem_cons_of_mem x h),
        signRow_other t x m i j fun h => hi (h ▸ List.mem_cons_self x xs)]

/-- The final entry of a processed row is its own row step's entry. -/
theorem signFold_mem (t : TreeTopo) :
    ∀ (l : List Nat) (m : Mat Int) (i j : Nat), i ∈ l → l.Nodup →
      ((l.foldl (fun m r => signRow t r m) m).entry i j =
        (signRow t i m).entry i j) := by
  intro l
  induction l with
  | nil => intro m i j h _; cases h
  | cons x xs ih =>
      intro m i j hi hnd
      rw [List.foldl_cons]
      rcases List.mem_cons.mp hi with rfl | hixs
      · exact signFold_not_mem t xs _ i j
          fun h => (List.pairwise_cons.mp hnd).1 i h rfl
      · rw [ih _ _ _ hixs (List.pairwise_cons.mp hnd).2]
        exact signRow_congr t i _ _ i j
          (signRow_other t x m i j fun h =>
            ((List.pairwise_cons.mp hnd).1 i hixs) h.symm)

/-- A subtree fill does not change the matrix dimensions. -/
theorem fill_subtree_dims (t : TreeTopo) (row l : Nat) (sign : Int)
    (m : Mat Int) :
    (fill_subtree_indices t row l sign m).rows = m.rows ∧
    (fill_subtree_indices t row l sign m).cols = m.cols := by
  unfold fill_subtree_indices
  generalize preorderSub t (linkCount t) l = ns
  induction ns generalizing m with
  | nil => exact ⟨rfl, rfl⟩
  | cons x xs ih => rw [List.foldl_cons]; exact ih _

/-- A row step does not change the matrix dimensions. -/
theorem signRow_dims (t : TreeTopo) (r : Nat) (m : Mat Int) :
    (signRow t r m).rows = m.rows ∧ (signRow t r m).cols = m.cols := by
  unfold signRow
  split_ifs <;>
    first
    | exact ⟨rfl, rfl⟩
    | exact ⟨(fill_subtree_dims t _ _ _ _).1.trans (fill_subtree_dims t _ _ _ _).1,
        (fill_subtree_dims t _ _ _ _).2.trans (fill_subtree_dims t _ _ _ _).2⟩

/-- The full sign matrix is node-count by node-count. -/
theorem sign_matrix_full_dims (t : TreeTopo) :
    (sign_matrix_full t).rows = node_count t ∧
    (sign_matrix_full t).cols = node_count t := by
  unfold sign_matrix_full
  have key : ∀ (l : List Nat) (m : Mat Int),
      (l.foldl (fun m i => signRow t i m) m).rows = m.rows ∧
      (l.foldl (fun m i => signRow t i m) m).cols = m.cols := by
    intro l
    induction l with
    | nil => intro m; exact ⟨rfl, rfl⟩
    | cons x xs ih =>
        intro m
        rw [List.foldl_cons]
        exact ⟨(ih _).1.trans (signRow_dims t x m).1,
          (ih _).2.trans (signRow_dims t x m).2⟩
  exact key _ _

/-- C1 (amended): for every non-empty tree that is not rooted or not
bifurcating, `sign_matrix` fails with `InvalidTopology` (for either
compression flag); for every rooted bifurcating tree whose sibling
subtrees are node-disjoint (the tree-ness of the arena) it returns an
n×n matrix (n = node count) over {−1, 0, +1} in which each root or
inner row carries +1 on all nodes of its first non-root-ward subtree,
−1 on all nodes of its second, and 0 everywhere else, and each leaf row
is all zero. -/
theorem C1_sign_matrix_pattern (t : TreeTopo) (hdisj : SignDisjoint t) :
    (node_count t ≠ 0 →
      (is_rooted t = false ∨ is_bifurcating t false = false) →
      ∀ c, sign_matrix t c = .error .invalidTopology) ∧
    (is_rooted t = true → is_bifurcating t false = true →
      ∃ m, sign_matrix t false = .ok m ∧
        m.rows = node_count t ∧ m.cols = node_count t ∧
        (∀ i j, m.entry i j = -1 ∨ m.entry i j = 0 ∨ m.entry i j = 1) ∧
        (∀ i, i < node_count t →
          ((i = rootNodeIdx t ∨ is_inner_node t i = true) →
            (∀ j, j ∈ plusSubtree t i → m.entry i j = 1) ∧
            (∀ j, j ∈ minusSubtree t i → m.entry i j = -1) ∧
            (∀ j, j ∉ plusSubtree t i → j ∉ minusSubtree t i →
              m.entry i j = 0)) ∧
          (¬ (i = rootNodeIdx t ∨ is_inner_node t i = true) →
            ∀ j, m.entry i j = 0))) := by
  constructor
  · intro hne hbad c
    unfold sign_matrix
    rw [if_neg hne]
    rcases hbad with h | h
    · rw [if_pos (by simp [h])]
    · by_cases hr : is_rooted t
      · rw [if_neg (by simp [hr]), if_pos (by simp [h])]
      · rw [if_pos (by simpa using hr)]
  · intro hr hb
    by_cases hempty : node_count t = 0
    · refine ⟨matInit Int 0 0 0, ?_, hempty ▸ rfl, hempty ▸ rfl, ?_, ?_⟩
      · unfold sign_matrix
        rw [if_pos hempty]
      · intro i j
        right; left; rfl
      · intro i hi
        omega
    · have hentry : ∀ i j, (sign_matrix_full t).entry i j =
          if i < node_count t then (signRow t i (matInit Int (node_count t) (node_count t) 0)).entry i j
          else 0 := by
        intro i j
        unfold sign_matrix_full
        by_cases hi : i < node_count t
        · rw [if_pos hi,
            signFold_mem t (List.range (node_count t)) _ i j
              (List.mem_range.mpr hi) (List.nodup_range _)]
        · rw [if_neg hi,
            signFold_not_mem t (List.range (node_count t)) _ i j
              fun h => hi (List.mem_range.mp h)]
          rfl
      refine ⟨sign_matrix_full t, ?_, (sign_matrix_full_dims t).1,
        (sign_matrix_full_dims t).2, ?_, ?_⟩
      · unfold sign_matrix
        rw [if_neg hempty, if_neg (by simp [hr]), if_neg (by simp [hb])]
        rfl
      · intro i j
        rw [hentry i j]
        by_cases hi : i < node_count t
        · rw [if_pos hi]
          by_cases hact : i = rootNodeIdx t ∨ is_inner_node t i = true
          · rw [signRow_entry_active t i _ j hact]
            split_ifs
            · left; rfl
            · right; right; rfl
            · right; left; rfl
          · rw [signRow_entry_leaf t i _ hact]
            right; left; rfl
        · rw [if_neg hi]
          right; left; rfl
      · intro i hi
        constructor
        · intro hact
          refine ⟨?_, ?_, ?_⟩
          · intro j hjp
            rw [hentry i j, if_pos hi, signRow_entry_active t i _ j hact,
              if_neg (hdisj i hi hact j hjp), if_pos hjp]
          · intro j hjm
            rw [hentry i j, if_pos hi, signRow_entry_active t i _ j hact,
              if_pos hjm]
          · intro j hjp hjm
            rw [hentry i j, if_pos hi, signRow_entry_active t i _ j hact,
              if_neg hjm, if_neg hjp]
            rfl
        · intro hact j
          rw [hentry i j, if_pos hi, signRow_entry_leaf t i _ hact]
          rfl

/-- C1, counterexample: the empty tree is not rooted (its root degree is
0, not 2), yet `sign_matrix` on it succeeds with the empty matrix
instead of failing with `InvalidTopology`. -/
theorem C1_sign_matrix_counterexample :
    is_rooted emptyTree = false ∧
    sign_matrix emptyTree false = Except.ok (matInit Int 0 0 0) ∧
    ∀ e : PErr, sign_matrix emptyTree false ≠ Except.error e := by
  exact ⟨by decide, rfl, fun e h => Except.noConfusion h⟩

/-- Witness for C1: the failure direction at the 10-node unrooted
reference tree, the pattern direction at the 9-node rooted test tree. -/
theorem C1_sign_matrix_pattern_witness :
    (SignDisjoint refTree10 ∧ node_count refTree10 ≠ 0 ∧
      is_rooted refTree10 = false ∧
      sign_matrix refTree10 false = .error .invalidTopology) ∧
    (SignDisjoint rootedTree9 ∧ is_rooted rootedTree9 = true ∧
      is_bifurcating rootedTree9 false = true ∧
      ∃ m, sign_matrix rootedTree9 false = .ok m ∧
        m.rows = node_count rootedTree9 ∧ m.cols = node_count rootedTree9 ∧
        (∀ i j, m.entry i j = -1 ∨ m.entry i j = 0 ∨ m.entry i j = 1) ∧
        (∀ i, i < node_count rootedTree9 →
          ((i = rootNodeIdx rootedTree9 ∨ is_inner_node rootedTree9 i = true) →
            (∀ j, j ∈ plusSubtree rootedTree9 i → m.entry i j = 1) ∧
            (∀ j, j ∈ minusSubtree rootedTree9 i → m.entry i j = -1) ∧
            (∀ j, j ∉ plusSubtree rootedTree9 i → j ∉ minusSubtree rootedTree9 i →
              m.entry i j = 0)) ∧
          (¬ (i = rootNodeIdx rootedTree9 ∨ is_inner_node rootedTree9 i = true) →
            ∀ j, m.entry i j = 0))) := by
  constructor
  · refine ⟨by decide, by decide, by decide, ?_⟩
    exact (C1_sign_matrix_pattern refTree10 (by decide)).1 (by decide)
      (Or.inl (by decide)) false
  · refine ⟨by decide, by decide, by decide, ?_⟩
    exact (C1_sign_matrix_pattern rootedTree9 (by decide)).2 (by decide) (by decide)

/-- Well-formedness of a topology arena, the data model of spec §3: link
tables are closed (each link's node and edge indices are in range, each
node's primary link is one of its own links), the `next` walk around
each node is a duplicate-free closed cycle covering exactly that node's
links, and the links of each edge are exactly its primary and secondary
link, which are distinct.  Decidable, so concrete trees are checked by
evaluation. -/
def Wellformed (t : TreeTopo) : Prop :=
  (∀ l, l < linkCount t → lnode t l < node_count t) ∧
  (∀ n, n < node_count t → nlink t n < linkCount t) ∧
  (∀ n, n < node_count t →
    (nodeCycle t (nlink t n)).Nodup ∧
    nodeCycle t (nlink t n) ≠ [] ∧
    lnext t ((nodeCycle t (nlink t n)).getD
      ((nodeCycle t (nlink t n)).length - 1) 0) = nlink t n ∧
    (nodeCycle t (nlink t n)).toFinset =
      (Finset.range (linkCount t)).filter (fun l => lnode t l = n)) ∧
  (∀ e, e < edge_count t → eplink t e < linkCount t ∧ eslink t e < linkCount t ∧
    eplink t e ≠ eslink t e ∧ ledge t (eplink t e) = e ∧ ledge t (eslink t e) = e) ∧
  (∀ l, l < linkCount t → ledge t l < edge_count t ∧
    (l = eplink t (ledge t l) ∨ l = eslink t (ledge t l)))

instance (t : TreeTopo) : Decidable (Wellformed t) :=
  inferInstanceAs (Decidable (
    (∀ l, l < linkCount t → lnode t l < node_count t) ∧
    (∀ n, n < node_count t → nlink t n < linkCount t) ∧
    (∀ n, n < node_count t →
      (nodeCycle t (nlink t n)).Nodup ∧
      nodeCycle t (nlink t n) ≠ [] ∧
      lnext t ((nodeCycle t (nlink t n)).getD
        ((nodeCycle t (nlink t n)).length - 1) 0) = nlink t n ∧
      (nodeCycle t (nlink t n)).toFinset =
        (Finset.range (linkCount t)).filter (fun l => lnode t l = n)) ∧
    (∀ e, e < edge_count t → eplink t e < linkCount t ∧ eslink t e < linkCount t ∧
      eplink t e ≠ eslink t e ∧ ledge t (eplink t e) = e ∧ ledge t (eslink t e) = e) ∧
    (∀ l, l < linkCount t → ledge t l < edge_count t ∧
      (l = eplink t (ledge t l) ∨ l = eslink t (ledge t l)))))

example : Wellformed refTree10 := by decide

example : Wellformed rootedTree9 := by decide

/-- The `k`-th element of the do-while walk is the `k`-th `next`
iterate of its starting link. -/
theorem nextChain_getD (t : TreeTopo) (start : Nat) :
    ∀ (fuel l k : Nat), k < (nextChain t start fuel l).length →
      (nextChain t start fuel l).getD k 0 = nextIter t k l := by
  intro fuel
  induction fuel with
  | zero => intro l k h; simp [nextChain] at h
  | succ fuel ih =>
      intro l k h
      rw [nextChain] at h ⊢
      by_cases hcl : lnext t l = start
      · rw [if_pos hcl] at h ⊢
        match k, h with
        | 0, _ => rfl
      · rw [if_neg hcl] at h ⊢
        match k, h with
        | 0, _ => rfl
        | k + 1, h =>
            rw [List.getD_cons_succ]
            exact ih (lnext t l) k (by simpa using Nat.lt_of_succ_lt_succ h)

/-- `nextIter` commutes: one more step is `lnext` of the iterate. -/
theorem nextIter_succ (t : TreeTopo) :
    ∀ (k l : Nat), nextIter t (k + 1) l = lnext t (nextIter t k l) := by
  intro k
  induction k with
  | zero => intro l; rfl
  | succ k ih =>
      intro l
      show nextIter t (k + 1) (lnext t l) = lnext t (nextIter t (k + 1) l)
      rw [ih (lnext t l)]
      rfl

/-- C9: over any well-formed topology the degrees sum to twice the edge
count; following `next` around a node's circular link list returns to
the start after exactly `degree` steps and not before; and a node's
primary link is a self-`next` leaf link exactly when the node has
degree 1. -/
theorem C9_degree_sum (t : TreeTopo) (hwf : Wellformed t) (n : Nat)
    (hn : n < node_count t) :
    (∑ i in Finset.range (node_count t), degree t i) = 2 * edge_count t ∧
    nextIter t (degree t n) (nlink t n) = nlink t n ∧
    (∀ k, 0 < k → k < degree t n → nextIter t k (nlink t n) ≠ nlink t n) ∧
    (is_leaf t (nlink t n) = true ↔ degree t n = 1) := by
  obtain ⟨hnode, hprim, hcyc, hedge, hledge⟩ := hwf
  have hdeg : ∀ i, i < node_count t → degree t i =
      ((Finset.range (linkCount t)).filter fun l => lnode t l = i).card := by
    intro i hi
    obtain ⟨hnd, _, _, hfs⟩ := hcyc i hi
    rw [degree, ← List.toFinset_card_of_nodup hnd, hfs]
  obtain ⟨hnd, hne, hcl, hfs⟩ := hcyc n hn
  have hlen : 0 < (nodeCycle t (nlink t n)).length := List.length_pos.mpr hne
  have hgd : ∀ k, k < (nodeCycle t (nlink t n)).length →
      (nodeCycle t (nlink t n)).getD k 0 = nextIter t k (nlink t n) :=
    fun k hk => nextChain_getD t (nlink t n) (linkCount t) (nlink t n) k hk
  refine ⟨?_, ?_, ?_, ?_⟩
  · have hsum1 : (Finset.range (linkCount t)).card =
        ∑ i in Finset.range (node_count t),
          ((Finset.range (linkCount t)).filter fun l => lnode t l = i).card :=
      Finset.card_eq_sum_card_fiberwise
        (fun x hx => Finset.mem_range.mpr (hnode x (Finset.mem_range.mp hx)))
    have hfib2 : ∀ e, e < edge_count t →
        ((Finset.range (linkCount t)).filter fun l => ledge t l = e) =
          {eplink t e, eslink t e} := by
      intro e he
      obtain ⟨hp, hs, hps, hep, hes⟩ := hedge e he
      ext x
      simp only [Finset.mem_filter, Finset.mem_range, Finset.mem_insert,
        Finset.mem_singleton]
      constructor
      · rintro ⟨hx, hxe⟩
        rcases (hledge x hx).2 with h | h
        · left; rw [h, hxe]
        · right; rw [h, hxe]
      · rintro (rfl | rfl)
        · exact ⟨hp, hep⟩
        · exact ⟨hs, hes⟩
    have hsum2 : (Finset.range (linkCount t)).card =
        ∑ e in Finset.range (edge_count t),
          ((Finset.range (linkCount t)).filter fun l => ledge t l = e).card :=
      Finset.card_eq_sum_card_fiberwise
        (fun x hx => Finset.mem_range.mpr ((hledge x (Finset.mem_range.mp hx)).1))
    have hL : linkCount t = 2 * edge_count t := by
      rw [← Finset.card_range (linkCount t), hsum2,
        Finset.sum_congr rfl (fun e he => by
          rw [hfib2 e (Finset.mem_range.mp he),
            Finset.card_pair (hedge e (Finset.mem_range.mp he)).2.2.1])]
      simp [Nat.mul_comm]
    rw [Finset.sum_congr rfl (fun i hi => hdeg i (Finset.mem_range.mp hi)),
      ← hsum1, Finset.card_range, hL]
  · have hstep : nextIter t ((nodeCycle t (nlink t n)).length - 1 + 1) (nlink t n) =
        lnext t (nextIter t ((nodeCycle t (nlink t n)).length - 1) (nlink t n)) :=
      nextIter_succ t _ _
    rw [degree, show (nodeCycle t (nlink t n)).length =
      (nodeCycle t (nlink t n)).length - 1 + 1 by omega, hstep,
      ← hgd _ (by omega), hcl]
  · intro k hk0 hklt heq
    have hk : k < (nodeCycle t (nlink t n)).length := hklt
    have h1 := hgd k hk
    have h0 := hgd 0 hlen
    rw [List.getD_eq_get _ _ hk] at h1
    rw [List.getD_eq_get _ _ hlen] at h0
    have hget : (nodeCycle t (nlink t n)).get ⟨k, hk⟩ =
        (nodeCycle t (nlink t n)).get ⟨0, hlen⟩ := by
      rw [h1, h0, heq]
      rfl
    have := (List.Nodup.get_inj_iff hnd).mp hget
    simp only [Fin.mk.injEq] at this
    omega
  · constructor
    · intro hleaf
      have hleq : lnext t (nlink t n) = nlink t n := by
        simpa [is_leaf] using hleaf
      have hl0 : 0 < linkCount t := Nat.lt_of_le_of_lt (Nat.zero_le _) (hprim n hn)
      rw [degree, nodeCycle, show linkCount t = (linkCount t - 1) + 1 by omega,
        nextChain, if_pos hleq]
      rfl
    · intro hdeg1
      have h0 := hgd 0 hlen
      have hlast : (nodeCycle t (nlink t n)).length - 1 = 0 := by
        rw [degree] at hdeg1
        omega
      rw [hlast, h0] at hcl
      simp only [nextIter] at hcl
      simp [is_leaf, hcl]

/-- Witness for C9 at the reference tree: it is well-formed, its degrees
sum to 18 = 2 × 9 edges, and node 0 (the trifurcating root R) needs
exactly 3 `next` steps to come round. -/
theorem C9_degree_sum_witness :
    Wellformed refTree10 ∧ 0 < node_count refTree10 ∧
    ((∑ i in Finset.range (node_count refTree10), degree refTree10 i) =
        2 * edge_count refTree10 ∧
      nextIter refTree10 (degree refTree10 0) (nlink refTree10 0) =
        nlink refTree10 0 ∧
      (∀ k, 0 < k → k < degree refTree10 0 →
        nextIter refTree10 k (nlink refTree10 0) ≠ nlink refTree10 0) ∧
      (is_leaf refTree10 (nlink refTree10 0) = true ↔ degree refTree10 0 = 1)) := by
  exact ⟨by decide, by decide, C9_degree_sum refTree10 (by decide) 0 (by decide)⟩

/-- C10, amended: `sign_matrix` applied to an empty tree (zero nodes)
returns an empty 0-by-0 matrix and does not fail, even though an empty
tree is not rooted (it passes the bifurcation check vacuously); the
rooted/bifurcating checks are only reached for non-empty trees. -/
theorem C10_sign_matrix_empty :
    node_count emptyTree = 0 ∧
    sign_matrix emptyTree false = Except.ok (matInit Int 0 0 0) ∧
    sign_matrix emptyTree true = Except.ok (matInit Int 0 0 0) ∧
    (matInit Int 0 0 0).rows = 0 ∧ (matInit Int 0 0 0).cols = 0 ∧
    is_rooted emptyTree = false ∧
    is_bifurcating emptyTree false = true := by
  exact ⟨rfl, rfl, rfl, rfl, rfl, by decide, by decide⟩

end Genesis
